import Mathlib

/-!
Verification of the remote-read client in
`app/vmctl/remoteread/remoteread.go` (package `remoteread`).

The embedding is shallow: pure Go functions become Lean functions and the
streaming loops become structural recursions over the already-received
wire data.  External collaborators (the HTTP transport, the snappy codec,
the protobuf marshaller, the `chunkenc` sample decoder and the Go regexp
compiler used by `labels.MustNewMatcher`) are abstracted at their
interface boundary exactly as the client observes them:
a chunk is embedded by the outcome of `parseSamples` on its bytes, a regex
pattern by whether the compiler accepts it, and one whole `fetch` attempt
inside `Read`'s retry loop by its resulting error value.
-/

set_option autoImplicit false

namespace RemoteRead

/-- Bit pattern of a `float64` sample value.  The client never inspects or
transforms sample values - they are moved verbatim from the decoder to the
callback - so the IEEE-754 payload is embedded opaquely as its 64-bit
pattern. -/
abbrev Float64Bits := Nat

/-- One `prompb.Label`: a `(name, value)` pair. -/
structure Label where
  name : String
  value : String
  deriving DecidableEq, Repr

/-- One `prompb.Sample`: millisecond timestamp plus value. -/
structure Sample where
  timestamp : Int
  value : Float64Bits
  deriving DecidableEq, Repr

/-- The `prompb.TimeSeries` accumulator used inside `fetch`. -/
structure TimeSeries where
  Labels : List Label
  Samples : List Sample
  deriving DecidableEq, Repr

/-- Go two's-complement `int64` arithmetic: reduce an unbounded integer to
the representative in `[-2^63, 2^63)`. -/
def wrap64 (n : Int) : Int :=
  (n + 2 ^ 63) % 2 ^ 64 - 2 ^ 63

/-- The `Filter` struct: read scope supplied by the caller. -/
structure Filter where
  Min : Int
  Max : Int
  Label : String
  LabelValue : String
  deriving DecidableEq, Repr

/-! `labels.MatchType` from `prometheus/model/labels` is an integer
enumeration; `prompb.LabelMatcher_Type` is the wire-level integer
enumeration.  Both are embedded by their numeric values. -/

def MatchEqual : Nat := 0

def MatchNotEqual : Nat := 1

def MatchRegexp : Nat := 2

def MatchNotRegexp : Nat := 3

def LabelMatcher_EQ : Nat := 0

def LabelMatcher_NEQ : Nat := 1

def LabelMatcher_RE : Nat := 2

def LabelMatcher_NRE : Nat := 3

/-- The reserved metric-name label `labels.MetricName`. -/
def MetricName : String := "__name__"

/-- A `labels.Matcher` value as built by `labels.NewMatcher`. -/
structure Matcher where
  mtype : Nat
  name : String
  value : String
  deriving DecidableEq, Repr

/-- A wire `prompb.LabelMatcher`. -/
structure LabelMatcher where
  mtype : Nat
  name : String
  value : String
  deriving DecidableEq, Repr

/-- A wire `prompb.Query` as built by `Client.query`. -/
structure Query where
  StartTimestampMs : Int
  EndTimestampMs : Int
  Matchers : List LabelMatcher
  deriving DecidableEq, Repr

/-- Embedding of `labels.MustNewMatcher` from the external
`prometheus/model/labels` dependency.  `NewMatcher` compiles the value as
a regular expression exactly when the match type is `MatchRegexp` or
`MatchNotRegexp`, and `MustNewMatcher` panics when that compilation
fails.  The external Go regexp compiler is abstracted as the oracle `rv`
(`rv v = true` iff the compiler accepts pattern `v`); `none` models the
panic. -/
def mustNewMatcher (rv : String → Bool) (t : Nat) (n v : String) : Option Matcher :=
  if (t = MatchRegexp ∨ t = MatchNotRegexp) ∧ rv v = false then
    none
  else
    some ⟨t, n, v⟩

/-- Embedding of `toLabelMatchers`: map a `labels.Matcher` kind onto the
wire matcher type, with the source's `default` branch returning the
`invalid matcher type` error. -/
def toLabelMatchers (matcher : Matcher) : Except String LabelMatcher :=
  if matcher.mtype = MatchEqual then
    Except.ok ⟨LabelMatcher_EQ, matcher.name, matcher.value⟩
  else if matcher.mtype = MatchNotEqual then
    Except.ok ⟨LabelMatcher_NEQ, matcher.name, matcher.value⟩
  else if matcher.mtype = MatchRegexp then
    Except.ok ⟨LabelMatcher_RE, matcher.name, matcher.value⟩
  else if matcher.mtype = MatchNotRegexp then
    Except.ok ⟨LabelMatcher_NRE, matcher.name, matcher.value⟩
  else
    Except.error "invalid matcher type"

/-- Possible outcomes of `Client.query`: a panic escaping from
`labels.MustNewMatcher`, the error return from `toLabelMatchers`, or the
built query. -/
inductive QueryResult where
  | panicked : QueryResult
  | failed (e : String) : QueryResult
  | ok (q : Query) : QueryResult
  deriving DecidableEq, Repr

/-- Embedding of `Client.query`: build the single matcher (catch-all on
the metric name when both filter fields are empty, otherwise a regex
matcher from the filter), convert it to the wire form, and assemble the
query with `StartTimestampMs = filter.Min` and
`EndTimestampMs = filter.Max - 1` (Go `int64` subtraction). -/
def query (rv : String → Bool) (filter : Filter) : QueryResult :=
  let ms :=
    if filter.Label = "" ∧ filter.LabelValue = "" then
      mustNewMatcher rv MatchRegexp MetricName ".+"
    else
      mustNewMatcher rv MatchRegexp filter.Label filter.LabelValue
  match ms with
  | none => QueryResult.panicked
  | some m =>
    match toLabelMatchers m with
    | Except.error e => QueryResult.failed e
    | Except.ok lm =>
      QueryResult.ok ⟨filter.Min, wrap64 (filter.Max - 1), [lm]⟩

theorem wrap64_eq_self {n : Int} (h1 : -(2 ^ 63) ≤ n) (h2 : n < 2 ^ 63) :
    wrap64 n = n := by
  unfold wrap64
  have h3 : (0 : Int) ≤ n + 2 ^ 63 := by omega
  have h4 : n + 2 ^ 63 < 2 ^ 64 := by omega
  rw [Int.emod_eq_of_lt h3 h4]
  omega

/-- C3: for every filter on which `query` succeeds, the built query holds
exactly one matcher; with both filter fields empty it is a regex matcher
on the reserved metric-name label with pattern `.+`, otherwise a regex
matcher with name `filter.Label` and pattern `filter.LabelValue`. -/
theorem query_builds_single_regex_matcher (rv : String → Bool)
    (filter : Filter) (q : Query) (h : query rv filter = QueryResult.ok q) :
    (filter.Label = "" ∧ filter.LabelValue = "" →
      q.Matchers = [⟨LabelMatcher_RE, MetricName, ".+"⟩]) ∧
    (¬(filter.Label = "" ∧ filter.LabelValue = "") →
      q.Matchers = [⟨LabelMatcher_RE, filter.Label, filter.LabelValue⟩]) := by
  unfold query mustNewMatcher at h
  constructor
  · intro hempty
    simp only [hempty, and_self, if_true] at h
    by_cases hrv : rv ".+" = false
    · simp [hrv, MatchRegexp, MatchNotRegexp] at h
    · simp only [hrv, and_false, if_false, if_neg] at h
      simp [toLabelMatchers, MatchEqual, MatchNotEqual, MatchRegexp, MatchNotRegexp] at h
      rw [← h]
  · intro hne
    rw [if_neg hne] at h
    by_cases hrv : rv filter.LabelValue = false
    · simp [hrv, MatchRegexp, MatchNotRegexp] at h
    · simp only [hrv, and_false, if_false, if_neg] at h
      simp [toLabelMatchers, MatchEqual, MatchNotEqual, MatchRegexp, MatchNotRegexp] at h
      rw [← h]

theorem query_builds_single_regex_matcher_witness :
    query (fun _ => true) ⟨0, 10, "", ""⟩ =
      QueryResult.ok ⟨0, 9, [⟨LabelMatcher_RE, MetricName, ".+"⟩]⟩ ∧
    ∀ q, query (fun _ => true) ⟨0, 10, "", ""⟩ = QueryResult.ok q →
      q.Matchers = [⟨LabelMatcher_RE, MetricName, ".+"⟩] := by
  refine ⟨by decide, ?_⟩
  intro q h
  exact (query_builds_single_regex_matcher (fun _ => true) ⟨0, 10, "", ""⟩ q h).1
    ⟨rfl, rfl⟩

/-- C4: for every filter with `Max` a representable `int64` above the
minimum, a successfully built query has start timestamp `filter.Min`, end
timestamp `filter.Max - 1`, and exactly one matcher. -/
theorem query_timestamps_and_matcher_count (rv : String → Bool)
    (filter : Filter) (q : Query) (h : query rv filter = QueryResult.ok q)
    (hlo : -(2 ^ 63) < filter.Max) (hhi : filter.Max < 2 ^ 63) :
    q.StartTimestampMs = filter.Min ∧
    q.EndTimestampMs = filter.Max - 1 ∧
    q.Matchers.length = 1 := by
  have hw : wrap64 (filter.Max - 1) = filter.Max - 1 :=
    wrap64_eq_self (by omega) (by omega)
  unfold query mustNewMatcher at h
  by_cases hempty : filter.Label = "" ∧ filter.LabelValue = ""
  · simp only [hempty, and_self, if_true] at h
    by_cases hrv : rv ".+" = false
    · simp [hrv, MatchRegexp, MatchNotRegexp] at h
    · simp only [hrv, and_false, if_false, if_neg] at h
      simp [toLabelMatchers, MatchEqual, MatchNotEqual, MatchRegexp, MatchNotRegexp] at h
      rw [← h]
      exact ⟨rfl, hw, rfl⟩
  · rw [if_neg hempty] at h
    by_cases hrv : rv filter.LabelValue = false
    · simp [hrv, MatchRegexp, MatchNotRegexp] at h
    · simp only [hrv, and_false, if_false, if_neg] at h
      simp [toLabelMatchers, MatchEqual, MatchNotEqual, MatchRegexp, MatchNotRegexp] at h
      rw [← h]
      exact ⟨rfl, hw, rfl⟩

theorem query_timestamps_and_matcher_count_witness :
    query (fun _ => true) ⟨3, 100, "job", "a.*"⟩ = QueryResult.ok ⟨3, 99,
      [⟨LabelMatcher_RE, "job", "a.*"⟩]⟩ ∧
    ∀ q, query (fun _ => true) ⟨3, 100, "job", "a.*"⟩ = QueryResult.ok q →
      q.StartTimestampMs = 3 ∧ q.EndTimestampMs = 99 ∧ q.Matchers.length = 1 := by
  refine ⟨by decide, ?_⟩
  intro q h
  exact query_timestamps_and_matcher_count (fun _ => true) ⟨3, 100, "job", "a.*"⟩ q h
    (by norm_num) (by norm_num)

/-- C10: for every filter on which `query` runs to completion (no panic in
matcher building), the `toLabelMatchers` conversion never takes its
invalid-matcher error branch - both builder branches construct a
`MatchRegexp` matcher, which maps to the wire `RE` type - so `query`
returns a built query and no error. -/
theorem query_never_fails_invalid_matcher (rv : String → Bool)
    (filter : Filter) (h : query rv filter ≠ QueryResult.panicked) :
    ∃ q, query rv filter = QueryResult.ok q ∧
      ∃ lm, q.Matchers = [lm] ∧ lm.mtype = LabelMatcher_RE := by
  unfold query mustNewMatcher at h ⊢
  by_cases hempty : filter.Label = "" ∧ filter.LabelValue = ""
  · simp only [hempty, and_self, if_true] at h ⊢
    by_cases hrv : rv ".+" = false
    · simp [hrv, MatchRegexp, MatchNotRegexp] at h
    · simp only [hrv, and_false, if_false, if_neg] at h ⊢
      simp [toLabelMatchers, MatchEqual, MatchNotEqual, MatchRegexp, MatchNotRegexp]
  · rw [if_neg hempty] at h ⊢
    by_cases hrv : rv filter.LabelValue = false
    · simp [hrv, MatchRegexp, MatchNotRegexp] at h
    · simp only [hrv, and_false, if_false, if_neg] at h ⊢
      simp [toLabelMatchers, MatchEqual, MatchNotEqual, MatchRegexp, MatchNotRegexp]

theorem query_never_fails_invalid_matcher_witness :
    query (fun _ => true) ⟨0, 10, "env", "prod|dev"⟩ ≠ QueryResult.panicked ∧
    ∃ q, query (fun _ => true) ⟨0, 10, "env", "prod|dev"⟩ = QueryResult.ok q ∧
      ∃ lm, q.Matchers = [lm] ∧ lm.mtype = LabelMatcher_RE :=
  ⟨by decide, query_never_fails_invalid_matcher (fun _ => true)
    ⟨0, 10, "env", "prod|dev"⟩ (by decide)⟩

deriving instance DecidableEq for Except

/-- One `prompb.ChunkedSeries` entry as the client observes it: its wire
labels plus, for each of its chunks, the outcome of `parseSamples` on the
chunk's `Data` bytes.  The `chunkenc` XOR decoder driven by
`parseSamples` is an external collaborator, so a chunk is embedded by its
decode result: `Except.ok` with the decoded sample list, or
`Except.error` with the decode error (`error read chunk: ...` or
`error iterate over chunks: ...`). -/
structure ChunkedSeries where
  Labels : List Label
  Chunks : List (Except String (List Sample))
  deriving DecidableEq, Repr

/-- An error value returned by one `fetch` attempt.  Go errors are opaque
values built with `fmt.Errorf`; each constructor records the data the
corresponding format string carries.  `canceled` stands for any error
`err` with `errors.Is(err, context.Canceled)`, i.e. a transport error
wrapping the canceled request context. -/
inductive FetchError where
  | canceled : FetchError
  | unexpectedStatus (code : Nat) (body : String) : FetchError
  | streamError (e : String) : FetchError
  | chunkError (e : String) : FetchError
  | callbackError (e : String) : FetchError
  deriving DecidableEq, Repr

/-- The inner chunk loop of `fetch` for one series entry: decode each
chunk with `parseSamples`, appending its samples to the accumulator, and
return the first decode error encountered. -/
def decodeChunks (ts : TimeSeries) :
    List (Except String (List Sample)) → Except String TimeSeries
  | [] => Except.ok ts
  | Except.error e :: _ => Except.error e
  | Except.ok samples :: rest =>
    decodeChunks { ts with Samples := ts.Samples ++ samples } rest

/-- The series loop of `fetch` over one framed response message: for each
`ChunkedSeries` entry, append its labels and its chunks' decoded samples
to the shared accumulator `ts` and invoke the callback once.  Returns the
list of `TimeSeries` values passed to the callback, in order, together
with the error that aborted the attempt (`none` when the whole message
was processed). -/
def processEntries (cb : TimeSeries → Option String) (ts : TimeSeries) :
    List ChunkedSeries → List TimeSeries × Option FetchError
  | [] => ([], none)
  | s :: rest =>
    let ts1 : TimeSeries := { ts with Labels := ts.Labels ++ s.Labels }
    match decodeChunks ts1 s.Chunks with
    | Except.error e => ([], some (FetchError.chunkError e))
    | Except.ok ts2 =>
      match cb ts2 with
      | some e => ([ts2], some (FetchError.callbackError e))
      | none =>
        let r := processEntries cb ts2 rest
        (ts2 :: r.1, r.2)

/-- The framed-message loop of `fetch`: read messages from the chunked
stream until end-of-stream.  A fresh `TimeSeries` accumulator is declared
per message (`var ts prompb.TimeSeries` inside the loop body).  The
stream is embedded as the list of `NextProto` outcomes preceding
`io.EOF`: reaching the end of the list is the `io.EOF` break. -/
def fetchLoop (cb : TimeSeries → Option String) :
    List (Except String (List ChunkedSeries)) → List TimeSeries × Option FetchError
  | [] => ([], none)
  | Except.error e :: _ => ([], some (FetchError.streamError e))
  | Except.ok msg :: rest =>
    let r := processEntries cb ⟨[], []⟩ msg
    match r.2 with
    | some e => (r.1, some e)
    | none =>
      let r2 := fetchLoop cb rest
      (r.1 ++ r2.1, r2.2)

/-- A received HTTP response as `fetch` observes it once the transport
call has succeeded: the status code, the body text read on the error
path, and the framed message stream the chunked reader yields on the
success path. -/
structure HTTPResponse where
  statusCode : Nat
  body : String
  stream : List (Except String (List ChunkedSeries))

/-- Embedding of `fetch` from the status check onwards: a status other
than 204 (`StatusNoContent`) and 200 (`StatusOK`) reads the body and
fails with the `unexpected response code` error carrying both; otherwise
the framed stream is consumed.  Returns the callback invocations and the
attempt's final error. -/
def fetch (cb : TimeSeries → Option String) (resp : HTTPResponse) :
    List TimeSeries × Option FetchError :=
  if resp.statusCode ≠ 204 ∧ resp.statusCode ≠ 200 then
    ([], some (FetchError.unexpectedStatus resp.statusCode resp.body))
  else
    fetchLoop cb resp.stream

/-- The sample list a chunk contributes when it decodes successfully. -/
def chunkSamples (c : Except String (List Sample)) : List Sample :=
  match c with
  | Except.ok samples => samples
  | Except.error _ => []

/-- Whether a chunk decodes without error. -/
def isOkChunk (c : Except String (List Sample)) : Bool :=
  match c with
  | Except.ok _ => true
  | Except.error _ => false

/-- All decoded samples of one series entry, chunks concatenated in wire
order. -/
def seriesSamples (s : ChunkedSeries) : List Sample :=
  s.Chunks.flatMap chunkSamples

/-- The accumulator value the callback receives for the entry at index
`i` of a message, when the message's processing starts from accumulator
`ts`: the labels of entries `0..i` and the decoded samples of all their
chunks, appended onto `ts`. -/
def accumSeries (ts : TimeSeries) (entries : List ChunkedSeries) (i : Nat) :
    TimeSeries :=
  ⟨ts.Labels ++ (entries.take (i + 1)).flatMap ChunkedSeries.Labels,
   ts.Samples ++ (entries.take (i + 1)).flatMap seriesSamples⟩

/-- The full list of callback arguments for one message's entries. -/
def accumCalls (ts : TimeSeries) (entries : List ChunkedSeries) :
    List TimeSeries :=
  (List.range entries.length).map (accumSeries ts entries)

/-- The accumulator state after all entries of `pre` are processed. -/
def accumEnd (ts : TimeSeries) (pre : List ChunkedSeries) : TimeSeries :=
  ⟨ts.Labels ++ pre.flatMap ChunkedSeries.Labels,
   ts.Samples ++ pre.flatMap seriesSamples⟩

theorem decodeChunks_all_ok (chunks : List (Except String (List Sample))) :
    ∀ ts : TimeSeries, (∀ c ∈ chunks, isOkChunk c = true) →
    decodeChunks ts chunks =
      Except.ok ⟨ts.Labels, ts.Samples ++ chunks.flatMap chunkSamples⟩ := by
  induction chunks with
  | nil => intro ts _; simp [decodeChunks]
  | cons c rest ih =>
    intro ts hok
    match c with
    | Except.error e =>
      exact absurd (hok _ (List.mem_cons_self _ _)) (by simp [isOkChunk])
    | Except.ok samples =>
      have := ih { ts with Samples := ts.Samples ++ samples }
        (fun c hc => hok c (List.mem_cons_of_mem _ hc))
      simp only [decodeChunks, this, List.flatMap_cons, chunkSamples]
      rw [List.append_assoc]

theorem decodeChunks_first_error (cpre : List (Except String (List Sample)))
    (e : String) (ctail : List (Except String (List Sample))) :
    ∀ ts : TimeSeries, (∀ c ∈ cpre, isOkChunk c = true) →
    decodeChunks ts (cpre ++ Except.error e :: ctail) = Except.error e := by
  induction cpre with
  | nil => intro ts _; simp [decodeChunks]
  | cons c rest ih =>
    intro ts hok
    match c with
    | Except.error e2 =>
      exact absurd (hok _ (List.mem_cons_self _ _)) (by simp [isOkChunk])
    | Except.ok samples =>
      simpa [decodeChunks] using
        ih { ts with Samples := ts.Samples ++ samples }
          (fun c hc => hok c (List.mem_cons_of_mem _ hc))

theorem accumSeries_cons_succ (ts : TimeSeries) (s : ChunkedSeries)
    (entries : List ChunkedSeries) (j : Nat) :
    accumSeries ts (s :: entries) (j + 1) =
      accumSeries ⟨ts.Labels ++ s.Labels, ts.Samples ++ seriesSamples s⟩ entries j := by
  simp [accumSeries, List.take_succ_cons, List.flatMap_cons, List.append_assoc]

theorem accumCalls_cons (ts : TimeSeries) (s : ChunkedSeries)
    (entries : List ChunkedSeries) :
    accumCalls ts (s :: entries) =
      (⟨ts.Labels ++ s.Labels, ts.Samples ++ seriesSamples s⟩ : TimeSeries) ::
        accumCalls ⟨ts.Labels ++ s.Labels, ts.Samples ++ seriesSamples s⟩ entries := by
  unfold accumCalls
  rw [List.length_cons, List.range_succ_eq_map, List.map_cons, List.map_map]
  congr 1
  · simp [accumSeries]
  · exact List.map_congr_left fun j _ => accumSeries_cons_succ ts s entries j

theorem processEntries_split (cb : TimeSeries → Option String)
    (hcb : ∀ t, cb t = none) (pre : List ChunkedSeries) :
    ∀ (ts : TimeSeries) (tail : List ChunkedSeries),
    (∀ s ∈ pre, ∀ c ∈ s.Chunks, isOkChunk c = true) →
    processEntries cb ts (pre ++ tail) =
      (accumCalls ts pre ++ (processEntries cb (accumEnd ts pre) tail).1,
       (processEntries cb (accumEnd ts pre) tail).2) := by
  induction pre with
  | nil =>
    intro ts tail _
    simp [accumCalls, accumEnd]
  | cons s rest ih =>
    intro ts tail hok
    have hs : ∀ c ∈ s.Chunks, isOkChunk c = true :=
      hok s (List.mem_cons_self _ _)
    have hdec := decodeChunks_all_ok s.Chunks
      { ts with Labels := ts.Labels ++ s.Labels } hs
    have hrest := ih ⟨ts.Labels ++ s.Labels, ts.Samples ++ seriesSamples s⟩ tail
      (fun t ht => hok t (List.mem_cons_of_mem _ ht))
    have hend : accumEnd ⟨ts.Labels ++ s.Labels, ts.Samples ++ seriesSamples s⟩ rest =
        accumEnd ts (s :: rest) := by
      simp [accumEnd, List.flatMap_cons, List.append_assoc]
    have hcalls := accumCalls_cons ts s rest
    simp only [seriesSamples] at hrest hend hcalls
    simp only [List.cons_append, processEntries, hdec, hcb, List.append_eq,
      hrest, hcalls, hend, List.cons_append]

theorem fetchLoop_single_ok (cb : TimeSeries → Option String)
    (msg : List ChunkedSeries)
    (hok : ∀ s ∈ msg, ∀ c ∈ s.Chunks, isOkChunk c = true)
    (hcb : ∀ t, cb t = none) :
    fetchLoop cb [Except.ok msg] = (accumCalls ⟨[], []⟩ msg, none) := by
  have hpe := processEntries_split cb hcb msg ⟨[], []⟩ [] hok
  simp only [List.append_nil, processEntries] at hpe
  simp [fetchLoop, hpe]

/-- C2: within one framed response message whose series entries are
`s1..sn` (every chunk decodable, callback succeeding), the `TimeSeries`
passed to the i-th callback invocation has `Labels` equal to the
concatenated labels of `s1..si` and `Samples` equal to the concatenated
decoded samples of all chunks of `s1..si`: the accumulator is never reset
between series entries of the same message, only at message boundaries
(each message starts from the empty accumulator `⟨[], []⟩`). -/
theorem fetch_accumulates_across_entries (cb : TimeSeries → Option String)
    (msg : List ChunkedSeries)
    (hok : ∀ s ∈ msg, ∀ c ∈ s.Chunks, isOkChunk c = true)
    (hcb : ∀ t, cb t = none) (i : Nat) (hi : i < msg.length) :
    (fetchLoop cb [Except.ok msg]).2 = none ∧
    (fetchLoop cb [Except.ok msg]).1.length = msg.length ∧
    (fetchLoop cb [Except.ok msg]).1[i]? =
      some ⟨(msg.take (i + 1)).flatMap ChunkedSeries.Labels,
            (msg.take (i + 1)).flatMap seriesSamples⟩ := by
  rw [fetchLoop_single_ok cb msg hok hcb]
  refine ⟨rfl, by simp [accumCalls], ?_⟩
  simp [accumCalls, List.getElem?_map, List.getElem?_range hi, accumSeries]

theorem fetch_accumulates_across_entries_witness :
    (∀ s ∈ [(⟨[⟨"n", "a"⟩], [Except.ok [⟨1, 5⟩]]⟩ : ChunkedSeries),
            ⟨[⟨"n", "b"⟩], [Except.ok [⟨2, 6⟩], Except.ok [⟨3, 7⟩]]⟩],
        ∀ c ∈ s.Chunks, isOkChunk c = true) ∧
    (1 : Nat) < 2 ∧
    (fetchLoop (fun _ => none)
        [Except.ok [⟨[⟨"n", "a"⟩], [Except.ok [⟨1, 5⟩]]⟩,
                    ⟨[⟨"n", "b"⟩], [Except.ok [⟨2, 6⟩], Except.ok [⟨3, 7⟩]]⟩]]).1[1]? =
      some ⟨[⟨"n", "a"⟩, ⟨"n", "b"⟩], [⟨1, 5⟩, ⟨2, 6⟩, ⟨3, 7⟩]⟩ := by
  refine ⟨by decide, by decide, ?_⟩
  have h := fetch_accumulates_across_entries (fun _ => none)
    [⟨[⟨"n", "a"⟩], [Except.ok [⟨1, 5⟩]]⟩,
     ⟨[⟨"n", "b"⟩], [Except.ok [⟨2, 6⟩], Except.ok [⟨3, 7⟩]]⟩]
    (by decide) (fun _ => rfl) 1 (by decide)
  rw [h.2.2]
  decide

/-- C6: if decoding a chunk of one series entry fails, the fetch attempt
returns that decode error, the callback is not invoked for that series
entry (it is invoked exactly for the earlier, fully decoded entries), and
no samples from the failed chunk are delivered to the callback. -/
theorem fetch_aborts_on_chunk_error (cb : TimeSeries → Option String)
    (pre post : List ChunkedSeries) (s : ChunkedSeries)
    (cpre ctail : List (Except String (List Sample))) (e : String)
    (hok : ∀ t ∈ pre, ∀ c ∈ t.Chunks, isOkChunk c = true)
    (hcb : ∀ t, cb t = none)
    (hchunks : s.Chunks = cpre ++ Except.error e :: ctail)
    (hcpre : ∀ c ∈ cpre, isOkChunk c = true) :
    fetchLoop cb [Except.ok (pre ++ s :: post)] =
      (accumCalls ⟨[], []⟩ pre, some (FetchError.chunkError e)) := by
  have hpe := processEntries_split cb hcb pre ⟨[], []⟩ (s :: post) hok
  have hdec := decodeChunks_first_error cpre e ctail
    { accumEnd ⟨[], []⟩ pre with
        Labels := (accumEnd ⟨[], []⟩ pre).Labels ++ s.Labels } hcpre
  rw [← hchunks] at hdec
  simp only [processEntries, hdec] at hpe
  simp [fetchLoop, hpe]

theorem fetch_aborts_on_chunk_error_witness :
    ((⟨[⟨"n", "b"⟩], [Except.ok [⟨2, 6⟩], Except.error "error read chunk: boom",
        Except.ok [⟨9, 9⟩]]⟩ : ChunkedSeries).Chunks =
      [Except.ok [⟨2, 6⟩]] ++ Except.error "error read chunk: boom" ::
        [Except.ok [⟨9, 9⟩]]) ∧
    fetchLoop (fun _ => none)
        [Except.ok [⟨[⟨"n", "a"⟩], [Except.ok [⟨1, 5⟩]]⟩,
                    ⟨[⟨"n", "b"⟩], [Except.ok [⟨2, 6⟩],
                      Except.error "error read chunk: boom",
                      Except.ok [⟨9, 9⟩]]⟩]] =
      (accumCalls ⟨[], []⟩ [⟨[⟨"n", "a"⟩], [Except.ok [⟨1, 5⟩]]⟩],
       some (FetchError.chunkError "error read chunk: boom")) := by
  refine ⟨by decide, ?_⟩
  exact fetch_aborts_on_chunk_error (fun _ => none)
    [⟨[⟨"n", "a"⟩], [Except.ok [⟨1, 5⟩]]⟩] []
    ⟨[⟨"n", "b"⟩], [Except.ok [⟨2, 6⟩], Except.error "error read chunk: boom",
      Except.ok [⟨9, 9⟩]]⟩
    [Except.ok [⟨2, 6⟩]] [Except.ok [⟨9, 9⟩]] "error read chunk: boom"
    (by decide) (fun _ => rfl) (by decide) (by decide)

/-- C8: for every HTTP response whose status code is neither 200 nor 204,
`fetch` reads the response body and fails with the error carrying both
the status code and the body text, and the callback is never invoked. -/
theorem fetch_fails_on_unexpected_status (cb : TimeSeries → Option String)
    (resp : HTTPResponse) (h200 : resp.statusCode ≠ 200)
    (h204 : resp.statusCode ≠ 204) :
    fetch cb resp =
      ([], some (FetchError.unexpectedStatus resp.statusCode resp.body)) := by
  simp [fetch, h200, h204]

theorem fetch_fails_on_unexpected_status_witness :
    ((503 : Nat) ≠ 200 ∧ (503 : Nat) ≠ 204) ∧
    fetch (fun _ => none)
        ⟨503, "Service Unavailable",
          [Except.ok [⟨[⟨"n", "a"⟩], [Except.ok [⟨1, 5⟩]]⟩]]⟩ =
      ([], some (FetchError.unexpectedStatus 503 "Service Unavailable")) :=
  ⟨by decide, fetch_fails_on_unexpected_status (fun _ => none)
    ⟨503, "Service Unavailable",
      [Except.ok [⟨[⟨"n", "a"⟩], [Except.ok [⟨1, 5⟩]]⟩]]⟩
    (by decide) (by decide)⟩

/-- C9: a 204 response with an empty framed stream makes `fetch` invoke
the callback zero times and return success: end-of-stream is the normal
termination condition, not an error. -/
theorem fetch_empty_stream_success (cb : TimeSeries → Option String)
    (body : String) :
    fetch cb ⟨204, body, []⟩ = ([], none) := by
  simp [fetch, fetchLoop]

/-- An observable step of `Read`'s retry loop: the i-th `fetch` attempt,
or the fixed one-second backoff `time.Sleep`. -/
inductive ReadEvent where
  | attempt (i : Nat) : ReadEvent
  | sleep : ReadEvent
  deriving DecidableEq, Repr

/-- The attempt budget of `Read`'s retry loop (`const attempts = 5`). -/
def attempts : Nat := 5

/-- Embedding of `Read`'s retry loop (`for i := 0; i < attempts; i++`).
One whole `fetch` attempt is an external exchange, abstracted by its
resulting error `fetchRes i` (`none` = success).  Returns the trace of
attempts and sleeps together with `Read`'s returned error: success exits
immediately, an error satisfying `errors.Is(err, context.Canceled)`
returns the `process stoped` error at once, any other error is logged,
followed by a one-second sleep and the next attempt, and falling off the
loop returns `nil`. -/
def readLoop (fetchRes : Nat → Option FetchError) :
    Nat → Nat → List ReadEvent × Option String
  | _, 0 => ([], none)
  | i, remaining + 1 =>
    match fetchRes i with
    | none => ([ReadEvent.attempt i], none)
    | some FetchError.canceled => ([ReadEvent.attempt i], some "process stoped")
    | some _ =>
      let r := readLoop fetchRes (i + 1) remaining
      (ReadEvent.attempt i :: ReadEvent.sleep :: r.1, r.2)

/-- Possible outcomes of `Client.Read`: a panic escaping from
`labels.MustNewMatcher` inside `query`, the wrapped
`error prepare stream query` failure, or normal completion of the retry
loop with its event trace and returned error.  The `proto.Marshal` step
between them never fails on queries built by `query` and is elided. -/
inductive ReadOutcome where
  | panicked : ReadOutcome
  | queryError (e : String) : ReadOutcome
  | result (events : List ReadEvent) (err : Option String) : ReadOutcome
  deriving DecidableEq, Repr

/-- Embedding of `Client.Read`: build the query (a `MustNewMatcher` panic
propagates, a `toLabelMatchers` error returns the wrapped query error),
then run the retry loop over the abstracted fetch attempts. -/
def Read (rv : String → Bool) (filter : Filter)
    (fetchRes : Nat → Option FetchError) : ReadOutcome :=
  match query rv filter with
  | QueryResult.panicked => ReadOutcome.panicked
  | QueryResult.failed e => ReadOutcome.queryError e
  | QueryResult.ok _ =>
    let r := readLoop fetchRes 0 attempts
    ReadOutcome.result r.1 r.2

/-- C1 (code behavior at the claim's failing input): when every one of
the 5 fetch attempts fails with a non-cancellation error - here an HTTP
503 status error - `Read` falls off the retry loop and returns `nil`
(success), not an exhaustion error.  The trace shows all 5 attempts, each
followed by the backoff sleep. -/
theorem read_silent_success_after_exhausted_attempts :
    Read (fun _ => true) ⟨0, 10, "", ""⟩
        (fun _ => some (FetchError.unexpectedStatus 503 "Service Unavailable")) =
      ReadOutcome.result
        [ReadEvent.attempt 0, ReadEvent.sleep, ReadEvent.attempt 1,
         ReadEvent.sleep, ReadEvent.attempt 2, ReadEvent.sleep,
         ReadEvent.attempt 3, ReadEvent.sleep, ReadEvent.attempt 4,
         ReadEvent.sleep] none := by
  decide

/-- The retry-loop trace when attempt `start + i` is the canceled one:
`i` failed attempts each followed by a sleep, then the canceled attempt
with nothing after it. -/
def cancelTrace (start : Nat) : Nat → List ReadEvent
  | 0 => [ReadEvent.attempt start]
  | k + 1 => ReadEvent.attempt start :: ReadEvent.sleep :: cancelTrace (start + 1) k

theorem cancelTrace_eq : ∀ (i start : Nat),
    cancelTrace start i =
      (List.range i).flatMap
          (fun j => [ReadEvent.attempt (start + j), ReadEvent.sleep]) ++
        [ReadEvent.attempt (start + i)] := by
  intro i
  induction i with
  | zero => intro start; simp [cancelTrace]
  | succ k ih =>
    intro start
    rw [List.range_succ_eq_map, List.flatMap_cons, List.flatMap_map]
    have hfun : (fun a => [ReadEvent.attempt (start + Nat.succ a), ReadEvent.sleep]) =
        fun a => [ReadEvent.attempt (start + 1 + a), ReadEvent.sleep] :=
      funext fun a => by rw [show start + Nat.succ a = start + 1 + a by omega]
    rw [hfun]
    show ReadEvent.attempt start :: ReadEvent.sleep :: cancelTrace (start + 1) k = _
    rw [ih (start + 1), show start + (k + 1) = start + 1 + k by omega]
    simp

theorem readLoop_canceled (fetchRes : Nat → Option FetchError) :
    ∀ (i start remaining : Nat), i < remaining →
    fetchRes (start + i) = some FetchError.canceled →
    (∀ j, j < i → ∃ e, fetchRes (start + j) = some e ∧ e ≠ FetchError.canceled) →
    readLoop fetchRes start remaining =
      (cancelTrace start i, some "process stoped") := by
  intro i
  induction i with
  | zero =>
    intro start remaining hlt hcanc _
    match remaining, hlt with
    | r + 1, _ =>
      simp only [Nat.add_zero] at hcanc
      simp [readLoop, hcanc, cancelTrace]
  | succ k ih =>
    intro start remaining hlt hcanc hprev
    match remaining, hlt with
    | r + 1, hlt =>
      obtain ⟨e, he, hne⟩ := hprev 0 (Nat.succ_pos k)
      rw [Nat.add_zero] at he
      have hrec := ih (start + 1) r (by omega)
        (by rw [show start + 1 + k = start + (k + 1) by omega]; exact hcanc)
        (fun j hj => by
          rw [show start + 1 + j = start + (j + 1) by omega]
          exact hprev (j + 1) (by omega))
      have hstep : readLoop fetchRes start (r + 1) =
          (ReadEvent.attempt start :: ReadEvent.sleep ::
            (readLoop fetchRes (start + 1) r).1,
           (readLoop fetchRes (start + 1) r).2) := by
        rw [readLoop, he]
        match e, hne with
        | FetchError.unexpectedStatus c b, _ => rfl
        | FetchError.streamError s, _ => rfl
        | FetchError.chunkError s, _ => rfl
        | FetchError.callbackError s, _ => rfl
      rw [hstep, hrec]
      rfl

/-- C5: if a fetch attempt fails because the request context was
canceled, `Read` returns the terminal `process stoped` error immediately:
the trace ends at the canceled attempt, with no backoff sleep after it
and no further fetch attempts, regardless of how many of the 5 attempts
remain. -/
theorem read_stops_on_cancellation (rv : String → Bool) (filter : Filter)
    (fetchRes : Nat → Option FetchError) (q : Query) (i : Nat)
    (hq : query rv filter = QueryResult.ok q)
    (hi : i < attempts)
    (hcanc : fetchRes i = some FetchError.canceled)
    (hprev : ∀ j, j < i → ∃ e, fetchRes j = some e ∧ e ≠ FetchError.canceled) :
    Read rv filter fetchRes =
      ReadOutcome.result
        ((List.range i).flatMap
            (fun j => [ReadEvent.attempt j, ReadEvent.sleep]) ++
          [ReadEvent.attempt i])
        (some "process stoped") := by
  have h := readLoop_canceled fetchRes i 0 attempts hi
    (by simpa using hcanc) (fun j hj => by simpa using hprev j hj)
  simp only [Read, hq, h, cancelTrace_eq, Nat.zero_add]

theorem read_stops_on_cancellation_witness :
    query (fun _ => true) ⟨0, 10, "", ""⟩ =
      QueryResult.ok ⟨0, 9, [⟨LabelMatcher_RE, MetricName, ".+"⟩]⟩ ∧
    (1 : Nat) < attempts ∧
    (fun j => if j = 1 then some FetchError.canceled
      else some (FetchError.unexpectedStatus 503 "")) 1 =
        some FetchError.canceled ∧
    Read (fun _ => true) ⟨0, 10, "", ""⟩
        (fun j => if j = 1 then some FetchError.canceled
          else some (FetchError.unexpectedStatus 503 "")) =
      ReadOutcome.result
        [ReadEvent.attempt 0, ReadEvent.sleep, ReadEvent.attempt 1]
        (some "process stoped") := by
  refine ⟨by decide, by decide, by decide, ?_⟩
  have h := read_stops_on_cancellation (fun _ => true) ⟨0, 10, "", ""⟩
    (fun j => if j = 1 then some FetchError.canceled
      else some (FetchError.unexpectedStatus 503 ""))
    ⟨0, 9, [⟨LabelMatcher_RE, MetricName, ".+"⟩]⟩ 1
    (by decide) (by decide) (by decide)
    (fun j hj => by
      match j, hj with
      | 0, _ => exact ⟨FetchError.unexpectedStatus 503 "", rfl, by decide⟩)
  rw [h]
  decide

/-- C7: there is a filter - one whose `LabelValue` the external regex
compiler rejects, such as the unclosed character class `[` - for which
query construction panics inside `MustNewMatcher` rather than returning
an error, so `Read` does not return its wrapped query-build error for
that input. -/
theorem read_panics_on_invalid_regex (rv : String → Bool)
    (fetchRes : Nat → Option FetchError) (hrv : rv "[" = false) :
    Read rv ⟨0, 10, "job", "["⟩ fetchRes = ReadOutcome.panicked := by
  have hquery : query rv ⟨0, 10, "job", "["⟩ = QueryResult.panicked := by
    unfold query mustNewMatcher
    simp [hrv, MatchRegexp]
  simp [Read, hquery]

theorem read_panics_on_invalid_regex_witness :
    ((fun v => !(v == "[")) "[") = false ∧
    Read (fun v => !(v == "[")) ⟨0, 10, "job", "["⟩ (fun _ => none) =
      ReadOutcome.panicked :=
  ⟨by decide, read_panics_on_invalid_regex (fun v => !(v == "["))
    (fun _ => none) (by decide)⟩

end RemoteRead
